import Mathlib

/-!
Verification of the csv_splitter streaming pipeline (src/main.rs).

The program splits a delimited text file into output files of a configured
row count.  We embed the pipeline shallowly:

* a batch is modelled as the list of its data rows (the row type is left
  abstract where only row counts matter, since the slicing code never
  inspects row contents);
* `readChunks` models the sequence of DataFrames the `CsvChunkReader`
  iterator yields on an error-free read of the whole file;
* `runAll` models the per-batch writer fan-out of `main`: each batch is cut
  into `ceil(height / K)` sub-chunks, and each sub-chunk thread pops the
  front of the shared index vector; the nondeterministic order in which the
  threads win the mutex is made explicit as a `List Nat` of sub-chunk ids
  per batch (a permutation of `range t` for a batch with `t` sub-chunks);
* the column transforms of the batch loop are modelled over a column-major
  `DFrame`, with the HashMap iteration order over the configured transform
  kinds made explicit as the list `order`.
-/

namespace CsvSplitter

/-- Models `get_number_csv_files` (src/main.rs lines 310-316): the f64
division `number_lines_input_file / number_lines_output_file` followed by
`.ceil()`, which on natural inputs with a positive divisor is the ceiling
division `(a + b - 1) / b`. -/
def get_number_csv_files (a b : Nat) : Nat := (a + b - 1) / b

/-- Models `count_csv_lines` (src/main.rs lines 318-327): counts every line
of the physical input file, the header line included. -/
def count_csv_lines (lines : List String) : Nat := lines.length

/-- Models `indexes_file_names = (1..1 + num_csv_files).collect()`
(src/main.rs line 108), the seed of the shared index vector. -/
def indexes_file_names (num_csv_files : Nat) : List Nat :=
  List.range' 1 num_csv_files

/-- Models `df.slice(start, len)` on a batch given as its list of rows. -/
def dfSlice (df : List α) (start len : Nat) : List α :=
  (df.drop start).take len

/-- The sub-chunk written by thread `i` (src/main.rs lines 209-211):
`start = i * chunk_size`, `end = min ((i+1) * chunk_size) df.height()`,
`chunk = df.slice(start, end - start)`. -/
def subChunk (K : Nat) (df : List α) (i : Nat) : List α :=
  dfSlice df (i * K) (min ((i + 1) * K) df.length - i * K)

/-- Fuel-driven chunking of the data rows: each step takes the next
`chunkSize` rows and recurses on the rest, stopping on an empty remainder
(the iterator returns `None` for a 0-row DataFrame, src/main.rs 296-307).
The fuel makes the recursion structural; `readChunks` instantiates it with
enough fuel. -/
def readChunksAux (chunkSize : Nat) : Nat → List α → List (List α)
  | 0, _ => []
  | _, [] => []
  | fuel + 1, r :: rs =>
    (r :: rs).take chunkSize :: readChunksAux chunkSize fuel ((r :: rs).drop chunkSize)

/-- The batches an error-free run of the `CsvChunkReader` iterator yields:
successive non-overlapping groups of `chunkSize` rows
(`with_skip_rows_after_header(skip)` + `with_n_rows(chunk_size)`,
src/main.rs 275-290, with `skip` advancing by `chunk_size` per call). -/
def readChunks (chunkSize : Nat) (rows : List α) : List (List α) :=
  readChunksAux chunkSize rows.length rows

/-- Models the per-batch writer fan-out of `main` (src/main.rs lines
179-250).  For each batch, `total_chunks = get_number_csv_files(height, K)`
threads are spawned; thread `i` writes `subChunk K df i`, and each thread
pops the front of the shared index vector under the mutex (lines 213-223).
The order in which the threads win the mutex is nondeterministic; it is
passed in explicitly, batch by batch, as a list of sub-chunk ids: the j-th
thread to acquire the lock is thread `order[j]`, so it pairs the j-th
remaining index with sub-chunk `order[j]`.  A faithful schedule for a batch
with `t` sub-chunks is a permutation of `range t`; a missing entry defaults
to spawn order.  The result is the list of written files as
(index, rows) pairs together with the indexes left in the allocator. -/
def runAll (K : Nat) : List (List Nat) → List Nat → List (List α) →
    List (Nat × List α) × List Nat
  | _, queue, [] => ([], queue)
  | scheds, queue, df :: dfs =>
    let t := get_number_csv_files df.length K
    let order := scheds.headD (List.range t)
    let files := (queue.take t).zip (order.map (subChunk K df))
    let rest := runAll K scheds.tail (queue.drop t) dfs
    (files ++ rest.1, rest.2)

/-- Total number of sub-chunks (= files written) over a list of batches. -/
def totalSubChunks (K : Nat) (dfs : List (List α)) : Nat :=
  (dfs.map (fun df => get_number_csv_files df.length K)).sum

/-- A schedule entry for a batch with `t` sub-chunks is a permutation of
`range t`: every spawned thread locks the mutex exactly once. -/
def ValidScheds (K : Nat) (scheds : List (List Nat)) (dfs : List (List α)) : Prop :=
  ∀ p ∈ scheds.zip dfs, p.1.Perm (List.range (get_number_csv_files p.2.length K))

/-- The whole splitting run of `main` on an input file with the given data
rows (src/main.rs lines 98-251): the physical line count seen by
`count_csv_lines` is `rows.length + 1` (the header plus one line per data
row), `chunck_size = num_lines_output_file * 14` (line 99), the allocator
is seeded with `(1..1 + num_csv_files)` (line 108), and each batch from the
chunk reader is fanned out by `runAll`. -/
def runSplit (K : Nat) (rows : List α) (scheds : List (List Nat)) :
    List (Nat × List α) × List Nat :=
  runAll K scheds (indexes_file_names (get_number_csv_files (rows.length + 1) K))
    (readChunks (K * 14) rows)

/-- Models the critical section of a writer thread (src/main.rs lines
213-223): under the mutex, if the shared index vector is empty the thread
receives None, otherwise it removes and receives the first element
(`data.remove(0)`). -/
def takeIndex : List Nat → Option Nat × List Nat
  | [] => (none, [])
  | x :: xs => (some x, xs)

/-- A batch for the transform stage: a column-major frame, each column a
name paired with its list of optional string cells (a null cell is
`none`). -/
structure DFrame where
  cols : List (String × List (Option String))
deriving DecidableEq

/-- Column lookup success, modelling whether `col(name)` /
`df.column(name)` resolves. -/
def colExists (df : DFrame) (name : String) : Bool :=
  df.cols.any (fun c => c.1 = name)

/-- Total column rewrite: replace every cell `v` of the named column by
`f v`, keeping null cells null (`opt_s.map(...)`, src/main.rs 147-150 and
164-167) and leaving every other column unchanged. -/
def pureMapColumn (df : DFrame) (name : String) (f : String → String) : DFrame :=
  ⟨df.cols.map (fun c => if c.1 = name then (c.1, c.2.map (Option.map f)) else c)⟩

/-- Models both column-rewrite paths of the transform loop (src/main.rs
122-176): the lazy `with_column(col(c).str().fn()).collect()?` pipeline
and the `df.column(c)?` + `df.replace` path both rewrite the named column
cell-wise and fail with a column-not-found error when the frame has no
such column. -/
def mapColumn (df : DFrame) (name : String) (f : String → String) :
    Except String DFrame :=
  if colExists df name then .ok (pureMapColumn df name f)
  else .error ("ColumnNotFound: " ++ name)

/-- ASCII model of the string uppercase transform
(`col(column).str().to_uppercase()`, src/main.rs 128). -/
def strToUppercase (s : String) : String := ⟨s.data.map Char.toUpper⟩

/-- ASCII model of the string lowercase transform
(`col(column).str().to_lowercase()`, src/main.rs 137). -/
def strToLowercase (s : String) : String := ⟨s.data.map Char.toLower⟩

/-- Transliteration table for the external `deunicode` crate (used at
src/main.rs 149): best-effort mapping of accented letters to their closest
ASCII letters; every right-hand side is ASCII. -/
def deunicodeTable : List (Char × List Char) :=
  [('á', ['a']), ('à', ['a']), ('â', ['a']), ('ã', ['a']), ('ä', ['a']),
   ('Á', ['A']), ('À', ['A']), ('Â', ['A']), ('Ã', ['A']), ('Ä', ['A']),
   ('é', ['e']), ('è', ['e']), ('ê', ['e']), ('ë', ['e']),
   ('É', ['E']), ('È', ['E']), ('Ê', ['E']),
   ('í', ['i']), ('ì', ['i']), ('î', ['i']), ('ï', ['i']), ('Í', ['I']),
   ('ó', ['o']), ('ò', ['o']), ('ô', ['o']), ('õ', ['o']), ('ö', ['o']),
   ('Ó', ['O']), ('Õ', ['O']),
   ('ú', ['u']), ('ù', ['u']), ('û', ['u']), ('ü', ['u']),
   ('Ú', ['U']), ('Ü', ['U']),
   ('ç', ['c']), ('Ç', ['C']), ('ñ', ['n']), ('Ñ', ['N'])]

/-- Per-character transliteration: ASCII characters map to themselves,
known accented letters to their table entry, anything else to the
placeholder `[?]` the deunicode crate emits. -/
def deunicodeChar (c : Char) : List Char :=
  if c.toNat < 128 then [c]
  else
    match deunicodeTable.find? (fun p => p.1 = c) with
    | some p => p.2
    | none => ['[', '?', ']']

def deunicodeChars : List Char → List Char
  | [] => []
  | c :: cs => deunicodeChar c ++ deunicodeChars cs

/-- Model of `deunicode(s)`: character-wise transliteration to ASCII. -/
def deunicode (s : String) : String := ⟨deunicodeChars s.data⟩

def titleWord : List Char → List Char
  | [] => []
  | c :: cs => c.toUpper :: cs.map Char.toLower

def splitOnSpace : List Char → List (List Char)
  | [] => [[]]
  | c :: cs =>
    match splitOnSpace cs with
    | [] => [[]]
    | w :: ws => if c = ' ' then [] :: w :: ws else (c :: w) :: ws

def joinWords : List (List Char) → List Char
  | [] => []
  | [w] => w
  | w :: ws => w ++ ' ' :: joinWords ws

/-- Model of the external inflector crate's `to_title_case` (used at
src/main.rs 166) as the spec describes it: capitalize the first letter of
each whitespace-separated word and lowercase the rest. -/
def to_title_case (s : String) : String :=
  ⟨joinWords ((splitOnSpace s.data).map titleWord)⟩

/-- Sequentially rewrite the listed columns with `f`; the first missing
column aborts with its error, as each `?` in the source loop propagates
the error out of `main`. -/
def applyCols (f : String → String) (df : DFrame) (cs : List String) :
    Except String DFrame :=
  cs.foldlM (fun d c => mapColumn d c f) df

/-- One iteration of `for (key, columns) in transformations.clone()`
(src/main.rs 123-176): the four `if key == ...` branches in source order;
a key matches at most one branch, the others leave the frame untouched. -/
def applyTransformKind (df : DFrame) (kv : String × List String) :
    Except String DFrame := do
  let df1 ← if kv.1 = "to_uppercase" then applyCols strToUppercase df kv.2 else pure df
  let df2 ← if kv.1 = "to_lowercase" then applyCols strToLowercase df1 kv.2 else pure df1
  let df3 ← if kv.1 = "to_normalized" then applyCols deunicode df2 kv.2 else pure df2
  if kv.1 = "to_titlecase" then applyCols to_title_case df3 kv.2 else pure df3

/-- The transform stage for one batch.  `transformations` is a Rust
HashMap (src/main.rs 83-96), so its (kind, columns) pairs arrive in an
unspecified iteration order; that order is passed explicitly as `order`. -/
def applyTransformations (order : List (String × List String)) (df : DFrame) :
    Except String DFrame :=
  order.foldlM applyTransformKind df

/-- Models how a transform error ends the run: the `?` operator returns
the error from `main`, and a Rust `main` returning `Err` exits with a
non-zero (failure) code. -/
def transformAbortCode (r : Except String DFrame) : Nat :=
  match r with
  | .ok _ => 0
  | .error _ => 1

def pureApplyCols (f : String → String) (df : DFrame) (cs : List String) : DFrame :=
  cs.foldl (fun d c => pureMapColumn d c f) df

/-- Error-free shadow of `applyTransformKind`. -/
def pureApplyKind (df : DFrame) (kv : String × List String) : DFrame :=
  let df1 := if kv.1 = "to_uppercase" then pureApplyCols strToUppercase df kv.2 else df
  let df2 := if kv.1 = "to_lowercase" then pureApplyCols strToLowercase df1 kv.2 else df1
  let df3 := if kv.1 = "to_normalized" then pureApplyCols deunicode df2 kv.2 else df2
  if kv.1 = "to_titlecase" then pureApplyCols to_title_case df3 kv.2 else df3

/-- The pure transform function a transform key selects, if any. -/
def kindFnOpt (key : String) : Option (String → String) :=
  if key = "to_uppercase" then some strToUppercase
  else if key = "to_lowercase" then some strToLowercase
  else if key = "to_normalized" then some deunicode
  else if key = "to_titlecase" then some to_title_case
  else none

/-- ASCII test used to state transliteration closure. -/
def isAsciiChar (c : Char) : Bool := c.toNat < 128

/-- A value is fully uppercase when it has no ASCII lowercase letter, the
characters the uppercase transform rewrites. -/
def hasNoLowercase (s : String) : Bool :=
  s.data.all (fun c => !(97 ≤ c.toNat && c.toNat ≤ 122))

/-- Models the input checks and exit behavior of `main` (src/main.rs
54-66 and the function result).  `std::fs::metadata(...)?` runs first, so
a missing file makes `main` return that io error: Rust prints its Debug
rendering and exits 1 (the dedicated println at lines 60-62 is dead code,
which is why the missing-file message below is the io error text).  A
zero-length file prints the line-64 message and calls `process::exit(1)`.
Otherwise the run proceeds: `pipeErr` is the error, if any, that a `?`
inside the batch loop propagates (exit 1), and `files` stands for the
files the loop wrote; on `Ok(())` the process exits 0.  The middle
component models the diagnostic lines printed for the failure. -/
def mainRun (present : Bool) (byteLen : Nat) (pipeErr : Option String)
    (files : List (Nat × List String)) :
    Nat × List String × List (Nat × List String) :=
  if present = false then
    (1, ["Error: No such file or directory (os error 2)"], [])
  else if byteLen = 0 then
    (1, ["O arquivo está vazio, por gentileza informe um arquivo valido."], [])
  else
    match pipeErr with
    | none => (0, [], files)
    | some e => (1, ["Error: " ++ e], files)

/-- Field splitting of one line on a separator character (the record
grammar the pipeline relies on; quoting is out of scope here). -/
def splitOnChar (sep : Char) : List Char → List (List Char)
  | [] => [[]]
  | c :: cs =>
    match splitOnChar sep cs with
    | [] => [[]]
    | w :: ws => if c = sep then [] :: w :: ws else (c :: w) :: ws

def parseCsvLine (sep : Char) (line : String) : List String :=
  (splitOnChar sep line.data).map (fun w => String.mk w)

/-- Models `CsvChunkReader::next_chunk` (src/main.rs 275-290): skip
`skipRows` data rows after the header, take `nRows`, and parse each line
with the separator hardcoded to `b';'` (`with_separator(b';')`) — the
configured `--delimiter` is never consulted by the reader. -/
def next_chunk (delimiter : Char) (skipRows nRows : Nat)
    (dataLines : List String) : List (List String) :=
  ((dataLines.drop skipRows).take nRows).map (parseCsvLine ';')

def joinWith (sep : Char) : List (List Char) → List Char
  | [] => []
  | [w] => w
  | w :: ws => w ++ sep :: joinWith sep ws

/-- Models one record written by `CsvWriter` with
`with_separator(args.delimiter as u8)` (src/main.rs 236-240): fields are
joined with the configured delimiter. -/
def writeRecordLine (delimiter : Char) (fields : List String) : String :=
  String.mk (joinWith delimiter (fields.map String.data))

/-- Models `CsvChunkReader::next` (src/main.rs 293-308): a successful read
of a 0-row frame ends iteration with None, and a reader error also yields
None — the error is discarded. -/
def chunkNext {α : Type _} (r : Except String (List α)) : Option (List α) :=
  match r with
  | .ok df => if df.length = 0 then none else some df
  | .error _ => none

/-- The batches the `for df in dataframes` loop consumes: successive
reader results until the first None. -/
def collectChunks {α : Type _} : List (Except String (List α)) → List (List α)
  | [] => []
  | r :: rs =>
    match chunkNext r with
    | none => []
    | some df => df :: collectChunks rs

/-- The batch loop of `main` over a stream of reader results, with no
transforms configured: the writer fan-out runs on each delivered batch,
and when the iterator ends — also when it ends because a read failed —
`main` falls through to `Ok(())`, so the final component, the exit code,
is 0. -/
def runSplitterLoop {α : Type _} (K : Nat) (scheds : List (List Nat))
    (queue : List Nat) (reads : List (Except String (List α))) :
    (List (Nat × List α) × List Nat) × Nat :=
  (runAll K scheds queue (collectChunks reads), 0)

theorem readChunksAux_congr {α : Type _} (K : Nat) (hK : 0 < K) :
    ∀ (f₁ f₂ : Nat) (l : List α), l.length ≤ f₁ → l.length ≤ f₂ →
      readChunksAux K f₁ l = readChunksAux K f₂ l := by
  intro f₁
  induction f₁ with
  | zero =>
    intro f₂ l h₁ _
    have : l = [] := List.eq_nil_of_length_eq_zero (Nat.le_zero.mp h₁)
    subst this
    cases f₂ <;> rfl
  | succ n ih =>
    intro f₂ l h₁ h₂
    cases l with
    | nil => cases f₂ <;> rfl
    | cons r rs =>
      cases f₂ with
      | zero => simp at h₂
      | succ m =>
        simp only [readChunksAux]
        congr 1
        apply ih
        · have hlen : ((r :: rs).drop K).length = (r :: rs).length - K := by
            simp [List.length_drop]
          simp only [hlen, List.length_cons] at *
          omega
        · have hlen : ((r :: rs).drop K).length = (r :: rs).length - K := by
            simp [List.length_drop]
          simp only [hlen, List.length_cons] at *
          omega

theorem readChunks_nil {α : Type _} (K : Nat) : readChunks K ([] : List α) = [] := rfl

theorem readChunks_cons {α : Type _} (K : Nat) (hK : 0 < K) (l : List α) (hl : l ≠ []) :
    readChunks K l = l.take K :: readChunks K (l.drop K) := by
  cases l with
  | nil => exact absurd rfl hl
  | cons r rs =>
    show readChunksAux K (rs.length + 1) (r :: rs) = _
    simp only [readChunksAux]
    congr 1
    apply readChunksAux_congr K hK
    · simp only [List.length_drop, List.length_cons]
      omega
    · exact Nat.le_refl _

/-- Strong-induction helper: prove a property of `readChunks K` by peeling
one chunk at a time. -/
theorem readChunks_induction {α : Type _} (K : Nat) (hK : 0 < K)
    (P : List α → Prop) (hnil : P [])
    (hstep : ∀ l : List α, l ≠ [] → P (l.drop K) → P l) :
    ∀ l : List α, P l := by
  intro l
  generalize hn : l.length = n
  induction n using Nat.strong_induction_on generalizing l with
  | _ n ih =>
    cases l with
    | nil => exact hnil
    | cons r rs =>
      apply hstep _ (by simp)
      apply ih ((r :: rs).drop K).length _ _ rfl
      subst hn
      simp only [List.length_drop, List.length_cons]
      omega

theorem flatten_readChunks {α : Type _} (K : Nat) (hK : 0 < K) (l : List α) :
    (readChunks K l).flatten = l := by
  induction l using readChunks_induction K hK with
  | hnil => simp [readChunks_nil]
  | hstep l hl ih =>
    rw [readChunks_cons K hK l hl]
    simp [ih, List.take_append_drop]

theorem get_number_csv_files_zero (K : Nat) (hK : 0 < K) :
    get_number_csv_files 0 K = 0 := by
  unfold get_number_csv_files
  exact Nat.div_eq_of_lt (by omega)

theorem get_number_csv_files_succ (K len : Nat) (hK : 0 < K) (hlen : 0 < len) :
    get_number_csv_files len K = get_number_csv_files (len - K) K + 1 := by
  unfold get_number_csv_files
  rcases le_or_lt len K with h | h
  · have h0 : len - K = 0 := by omega
    rw [h0]
    have h1 : (0 + K - 1) / K = 0 := Nat.div_eq_of_lt (by omega)
    rw [h1]
    exact Nat.div_eq_of_lt_le (by omega) (by omega)
  · have h2 : len + K - 1 = (len - K + K - 1) + K := by omega
    rw [h2, Nat.add_div_right _ hK]

theorem get_number_csv_files_mono (K a b : Nat) (h : a ≤ b) :
    get_number_csv_files a K ≤ get_number_csv_files b K :=
  Nat.div_le_div_right (by omega)

/-- Row count of the final sub-chunk in slice order: what remains after
`t - 1` full slices of `K` rows, expressed through `len % K`. -/
theorem tail_chunk_size (K len : Nat) (hK : 0 < K) (hlen : 0 < len) :
    len - (get_number_csv_files len K - 1) * K = if len % K = 0 then K else len % K := by
  have hdm : K * (len / K) + len % K = len := Nat.div_add_mod len K
  have hrK : len % K < K := Nat.mod_lt _ hK
  by_cases h : len % K = 0
  · rw [if_pos h]
    rw [h, Nat.add_zero] at hdm
    have hq : 0 < len / K := by
      rcases Nat.eq_zero_or_pos (len / K) with h0 | h0
      · rw [h0, Nat.mul_zero] at hdm; omega
      · exact h0
    have hnum : get_number_csv_files len K = len / K := by
      unfold get_number_csv_files
      have h2 : len + K - 1 = K * (len / K) + (K - 1) := by omega
      have h3 : (K - 1) / K = 0 := Nat.div_eq_of_lt (by omega)
      rw [h2, Nat.mul_add_div hK, h3, Nat.add_zero]
    rw [hnum]
    have h3 : (len / K - 1) * K = len / K * K - K := by
      rw [Nat.sub_mul, Nat.one_mul]
    have h4 : len / K * K = K * (len / K) := Nat.mul_comm _ _
    have h5 : K ≤ K * (len / K) := Nat.le_mul_of_pos_right _ hq
    omega
  · rw [if_neg h]
    have hnum : get_number_csv_files len K = len / K + 1 := by
      unfold get_number_csv_files
      have h2 : len + K - 1 = K * (len / K) + (len % K + K - 1) := by omega
      have h3 : (len % K + K - 1) / K = 1 :=
        Nat.div_eq_of_lt_le (by omega) (by omega)
      rw [h2, Nat.mul_add_div hK, h3]
    rw [hnum, Nat.add_sub_cancel]
    have h4 : len / K * K = K * (len / K) := Nat.mul_comm _ _
    omega

/-- How many seeded indexes outlive the run: the seed is computed from the
physical line count `R + 1` (header included) while only `ceil(R / K)`
sub-chunks ever draw an index. -/
theorem seed_surplus (K R : Nat) (hK : 0 < K) :
    get_number_csv_files (R + 1) K - get_number_csv_files R K =
      if K ∣ R then 1 else 0 := by
  have hdm : K * (R / K) + R % K = R := Nat.div_add_mod R K
  have hrK : R % K < K := Nat.mod_lt _ hK
  by_cases h : R % K = 0
  · rw [if_pos (Nat.dvd_iff_mod_eq_zero.mpr h)]
    rw [h, Nat.add_zero] at hdm
    have h1 : get_number_csv_files R K = R / K := by
      unfold get_number_csv_files
      have h2 : R + K - 1 = K * (R / K) + (K - 1) := by omega
      have h2b : (K - 1) / K = 0 := Nat.div_eq_of_lt (by omega)
      rw [h2, Nat.mul_add_div hK, h2b, Nat.add_zero]
    have h3 : get_number_csv_files (R + 1) K = R / K + 1 := by
      unfold get_number_csv_files
      have h4 : R + 1 + K - 1 = K * (R / K + 1) := by
        rw [Nat.mul_add, Nat.mul_one]; omega
      rw [h4, Nat.mul_div_cancel_left _ hK]
    rw [h1, h3]; omega
  · rw [if_neg (fun hd => h (Nat.dvd_iff_mod_eq_zero.mp hd))]
    have h1 : get_number_csv_files R K = R / K + 1 := by
      unfold get_number_csv_files
      have h2 : R + K - 1 = K * (R / K) + (R % K + K - 1) := by omega
      have h2b : (R % K + K - 1) / K = 1 :=
        Nat.div_eq_of_lt_le (by omega) (by omega)
      rw [h2, Nat.mul_add_div hK, h2b]
    have h3 : get_number_csv_files (R + 1) K = R / K + 1 := by
      unfold get_number_csv_files
      have h4 : R + 1 + K - 1 = K * (R / K) + (R % K + K) := by omega
      have h4b : R % K / K = 0 := Nat.div_eq_of_lt hrK
      rw [h4, Nat.mul_add_div hK, Nat.add_div_right _ hK, h4b]
    rw [h1, h3]; omega

theorem subChunk_zero {α : Type _} (K : Nat) (df : List α) :
    subChunk K df 0 = df.take K := by
  unfold subChunk dfSlice
  simp only [Nat.zero_mul, Nat.sub_zero, List.drop_zero, Nat.zero_add, Nat.one_mul]
  rcases le_or_lt K df.length with h | h
  · rw [Nat.min_eq_left h]
  · rw [Nat.min_eq_right (Nat.le_of_lt h), List.take_of_length_le (Nat.le_refl _),
      List.take_of_length_le (Nat.le_of_lt h)]

theorem subChunk_succ {α : Type _} (K : Nat) (df : List α) (i : Nat) :
    subChunk K df (i + 1) = subChunk K (df.drop K) i := by
  unfold subChunk dfSlice
  rw [List.drop_drop, List.length_drop]
  have h1 : (i + 1) * K = K + i * K := by ring
  have h2 : (i + 1 + 1) * K = K + i * K + K := by ring
  rw [h1, h2]
  congr 1
  omega

/-- The sub-chunks cut out by the writer threads, listed in slice order,
are exactly the `K`-row chunking of the batch. -/
theorem range_map_subChunk {α : Type _} (K : Nat) (hK : 0 < K) (l : List α) :
    (List.range (get_number_csv_files l.length K)).map (subChunk K l) =
      readChunks K l := by
  induction l using readChunks_induction K hK with
  | hnil => simp [readChunks_nil, get_number_csv_files_zero K hK]
  | hstep l hl ih =>
    have hlen : 0 < l.length := List.length_pos.mpr hl
    rw [readChunks_cons K hK l hl, get_number_csv_files_succ K l.length hK hlen,
      List.range_succ_eq_map, List.map_cons, List.map_map, subChunk_zero]
    congr 1
    rw [← ih]
    have hdl : (l.drop K).length = l.length - K := by simp
    rw [hdl]
    apply List.map_congr_left
    intro i _
    simpa only [Function.comp_apply] using subChunk_succ K l i

theorem length_readChunks {α : Type _} (K : Nat) (hK : 0 < K) (l : List α) :
    (readChunks K l).length = get_number_csv_files l.length K := by
  rw [← range_map_subChunk K hK l]
  simp

/-- Re-chunking a `c * K`-row chunk prefix agrees with chunking the whole
list: chunk boundaries at multiples of `K` compose. -/
theorem readChunks_take_drop {α : Type _} (K : Nat) (hK : 0 < K) :
    ∀ (c : Nat) (l : List α),
      readChunks K (l.take (c * K)) ++ readChunks K (l.drop (c * K)) =
        readChunks K l := by
  intro c
  induction c with
  | zero => intro l; simp [readChunks_nil]
  | succ c ih =>
    intro l
    rcases List.eq_nil_or_concat l with rfl | _
    · simp [readChunks_nil]
    · have hl : l ≠ [] := by
        rintro rfl
        simp_all
      have hcK : 0 < (c + 1) * K := Nat.mul_pos (Nat.succ_pos c) hK
      have htake : l.take ((c + 1) * K) ≠ [] := by
        apply List.ne_nil_of_length_pos
        rw [List.length_take]
        exact lt_min hcK (List.length_pos.mpr hl)
      rw [readChunks_cons K hK (l.take ((c + 1) * K)) htake]
      have e1 : (l.take ((c + 1) * K)).take K = l.take K := by
        rw [List.take_take, Nat.min_eq_left (Nat.le_mul_of_pos_left K (Nat.succ_pos c))]
      have e2 : (l.take ((c + 1) * K)).drop K = (l.drop K).take (c * K) := by
        rw [List.drop_take]
        congr 1
        have h : (c + 1) * K = c * K + K := by ring
        rw [h, Nat.add_sub_cancel]
      have e3 : l.drop ((c + 1) * K) = (l.drop K).drop (c * K) := by
        rw [List.drop_drop]
        congr 1
        ring
      rw [e1, e2, e3, List.cons_append, ih (l.drop K), ← readChunks_cons K hK l hl]

/-- Chunking each `14 * K`-row batch into `K`-row sub-chunks and
concatenating over the batches yields the `K`-row chunking of the whole
input: output files only respect the row count, never batch boundaries. -/
theorem flatten_map_readChunks {α : Type _} (K c : Nat) (hK : 0 < K) (hc : 0 < c)
    (l : List α) :
    ((readChunks (c * K) l).map (readChunks K)).flatten = readChunks K l := by
  have hcK : 0 < c * K := Nat.mul_pos hc hK
  induction l using readChunks_induction (c * K) hcK with
  | hnil => simp [readChunks_nil]
  | hstep l hl ih =>
    rw [readChunks_cons (c * K) hcK l hl, List.map_cons, List.flatten_cons, ih,
      readChunks_take_drop K hK c l]

/-- Every chunk except the final one holds exactly `K` rows. -/
theorem readChunks_dropLast_full {α : Type _} (K : Nat) (hK : 0 < K) (l : List α) :
    ∀ c ∈ (readChunks K l).dropLast, c.length = K := by
  induction l using readChunks_induction K hK with
  | hnil => simp [readChunks_nil]
  | hstep l hl ih =>
    rw [readChunks_cons K hK l hl]
    intro c hc
    rcases h : readChunks K (l.drop K) with _ | ⟨b, bs⟩
    · rw [h] at hc
      simp at hc
    · rw [h, List.dropLast_cons₂, List.mem_cons] at hc
      rcases hc with rfl | hc
      · have hdrop : l.drop K ≠ [] := by
          intro h0
          rw [h0, readChunks_nil] at h
          exact List.noConfusion h
        have hlen : K < l.length := by
          have := List.length_pos.mpr hdrop
          rw [List.length_drop] at this
          omega
        rw [List.length_take]
        exact Nat.min_eq_left (Nat.le_of_lt hlen)
      · exact ih c (h ▸ hc)

theorem readChunks_ne_nil {α : Type _} (K : Nat) (hK : 0 < K) (l : List α)
    (hl : l ≠ []) : readChunks K l ≠ [] := by
  rw [readChunks_cons K hK l hl]
  exact List.cons_ne_nil _ _

/-- The final chunk holds `len % K` rows, or `K` when `K` divides `len`. -/
theorem readChunks_getLast_length {α : Type _} (K : Nat) (hK : 0 < K) (l : List α)
    (hl : l ≠ []) (hne : readChunks K l ≠ []) :
    ((readChunks K l).getLast hne).length =
      if l.length % K = 0 then K else l.length % K := by
  have hlen : 0 < l.length := List.length_pos.mpr hl
  rw [← tail_chunk_size K l.length hK hlen]
  have hsplit := List.dropLast_append_getLast hne
  have hflat : ((readChunks K l).map List.length).sum = l.length := by
    rw [← List.length_flatten, flatten_readChunks K hK l]
  rw [← hsplit, List.map_append, List.sum_append, List.map_cons, List.map_nil,
    List.sum_cons, List.sum_nil] at hflat
  have hfull : (((readChunks K l).dropLast).map List.length).sum =
      ((readChunks K l).dropLast).length * K := by
    rw [List.sum_eq_card_nsmul _ K]
    · simp [Nat.mul_comm]
    · intro x hx
      rw [List.mem_map] at hx
      obtain ⟨c, hc, rfl⟩ := hx
      exact readChunks_dropLast_full K hK l c hc
  have hlastlen : ((readChunks K l).dropLast).length = (readChunks K l).length - 1 := by
    simp [List.length_dropLast]
  have hcount : (readChunks K l).length = get_number_csv_files l.length K :=
    length_readChunks K hK l
  rw [hfull, hlastlen, hcount] at hflat
  omega

theorem runAll_snd {α : Type _} (K : Nat) :
    ∀ (dfs : List (List α)) (scheds : List (List Nat)) (queue : List Nat),
      (runAll K scheds queue dfs).2 = queue.drop (totalSubChunks K dfs) := by
  intro dfs
  induction dfs with
  | nil => intro scheds queue; simp [runAll, totalSubChunks]
  | cons df dfs ih =>
    intro scheds queue
    simp only [runAll, ih, List.drop_drop, totalSubChunks, List.map_cons, List.sum_cons]

theorem runAll_map_fst {α : Type _} (K : Nat) :
    ∀ (dfs : List (List α)) (scheds : List (List Nat)) (queue : List Nat),
      ValidScheds K scheds dfs →
      (runAll K scheds queue dfs).1.map Prod.fst = queue.take (totalSubChunks K dfs) := by
  intro dfs
  induction dfs with
  | nil => intro scheds queue _; simp [runAll, totalSubChunks]
  | cons df dfs ih =>
    intro scheds queue hs
    have horder : (scheds.headD (List.range (get_number_csv_files df.length K))).length =
        get_number_csv_files df.length K := by
      cases scheds with
      | nil => simp
      | cons s ss =>
        have hmem : (s, df) ∈ (s :: ss).zip (df :: dfs) := by
          simp [List.zip_cons_cons]
        have := hs _ hmem
        simpa using this.length_eq
    have htail : ValidScheds K scheds.tail dfs := by
      intro p hp
      cases scheds with
      | nil => simp at hp
      | cons s ss =>
        exact hs p (List.mem_cons_of_mem _ hp)
    simp only [runAll, List.map_append, ih _ _ htail]
    rw [List.map_fst_zip]
    · have ht : totalSubChunks K (df :: dfs) =
          get_number_csv_files df.length K + totalSubChunks K dfs := by
        simp [totalSubChunks]
      rw [ht, List.take_add]
    · rw [List.length_map, horder, List.length_take]
      exact Nat.min_le_left _ _

theorem runAll_rowcounts {α : Type _} (K : Nat) (hK : 0 < K) :
    ∀ (dfs : List (List α)) (scheds : List (List Nat)) (queue : List Nat),
      ValidScheds K scheds dfs →
      totalSubChunks K dfs ≤ queue.length →
      ((runAll K scheds queue dfs).1.map (fun f => f.2.length)).Perm
        (((dfs.map (readChunks K)).flatten).map List.length) := by
  intro dfs
  induction dfs with
  | nil => intro scheds queue _ _; simp [runAll]
  | cons df dfs ih =>
    intro scheds queue hs hq
    have horder : (scheds.headD (List.range (get_number_csv_files df.length K))).Perm
        (List.range (get_number_csv_files df.length K)) := by
      cases scheds with
      | nil => simp
      | cons s ss =>
        exact hs (s, df) (List.mem_cons_self _ _)
    have htail : ValidScheds K scheds.tail dfs := by
      intro p hp
      cases scheds with
      | nil => simp at hp
      | cons s ss =>
        exact hs p (List.mem_cons_of_mem _ hp)
    have hTcons : totalSubChunks K (df :: dfs) =
        get_number_csv_files df.length K + totalSubChunks K dfs := by
      simp [totalSubChunks]
    have hqt : get_number_csv_files df.length K ≤ queue.length := by omega
    have hqtail : totalSubChunks K dfs ≤ (queue.drop (get_number_csv_files df.length K)).length := by
      rw [List.length_drop]; omega
    simp only [runAll, List.map_append, List.map_cons, List.flatten_cons]
    apply List.Perm.append
    · have hzip : ((queue.take (get_number_csv_files df.length K)).zip
          ((scheds.headD (List.range (get_number_csv_files df.length K))).map
            (subChunk K df))).map (fun f => f.2.length) =
          ((scheds.headD (List.range (get_number_csv_files df.length K))).map
            (subChunk K df)).map List.length := by
        have := List.map_snd_zip (queue.take (get_number_csv_files df.length K))
          ((scheds.headD (List.range (get_number_csv_files df.length K))).map
            (subChunk K df))
          (by
            rw [List.length_map, horder.length_eq, List.length_range, List.length_take]
            omega)
        calc ((queue.take (get_number_csv_files df.length K)).zip
            ((scheds.headD (List.range (get_number_csv_files df.length K))).map
              (subChunk K df))).map (fun f => f.2.length)
            = (((queue.take (get_number_csv_files df.length K)).zip
              ((scheds.headD (List.range (get_number_csv_files df.length K))).map
                (subChunk K df))).map Prod.snd).map List.length := by
              rw [List.map_map]; rfl
          _ = _ := by rw [this]
      rw [hzip, ← range_map_subChunk K hK df]
      exact ((horder.map (subChunk K df)).map List.length)
    · exact ih scheds.tail _ htail hqtail

theorem totalSubChunks_readChunks {α : Type _} (K : Nat) (hK : 0 < K) (rows : List α) :
    totalSubChunks K (readChunks (K * 14) rows) = get_number_csv_files rows.length K := by
  have h14 : K * 14 = 14 * K := Nat.mul_comm _ _
  unfold totalSubChunks
  have hmap : (readChunks (K * 14) rows).map (fun df => get_number_csv_files df.length K) =
      ((readChunks (K * 14) rows).map (readChunks K)).map List.length := by
    rw [List.map_map]
    apply List.map_congr_left
    intro df _
    exact (length_readChunks K hK df).symm
  rw [hmap, ← List.length_flatten, h14, flatten_map_readChunks K 14 hK (by omega),
    length_readChunks K hK rows]

theorem runSplit_map_fst {α : Type _} (K : Nat) (hK : 0 < K) (rows : List α)
    (scheds : List (List Nat)) (hs : ValidScheds K scheds (readChunks (K * 14) rows)) :
    (runSplit K rows scheds).1.map Prod.fst =
      List.range' 1 (get_number_csv_files rows.length K) := by
  unfold runSplit
  rw [runAll_map_fst K _ _ _ hs, totalSubChunks_readChunks K hK rows]
  have hTN : get_number_csv_files rows.length K ≤
      get_number_csv_files (rows.length + 1) K :=
    get_number_csv_files_mono K _ _ (Nat.le_succ _)
  unfold indexes_file_names
  have hsplit : List.range' 1 (get_number_csv_files (rows.length + 1) K) =
      List.range' 1 (get_number_csv_files rows.length K) ++
        List.range' (1 + get_number_csv_files rows.length K)
          (get_number_csv_files (rows.length + 1) K - get_number_csv_files rows.length K) := by
    have h := List.range'_append 1 (get_number_csv_files rows.length K)
      (get_number_csv_files (rows.length + 1) K - get_number_csv_files rows.length K) 1
    simp only [Nat.one_mul] at h
    have h2 : get_number_csv_files (rows.length + 1) K - get_number_csv_files rows.length K +
        get_number_csv_files rows.length K = get_number_csv_files (rows.length + 1) K := by
      omega
    rw [h2] at h
    exact h.symm
  rw [hsplit]
  exact List.take_left' (List.length_range' _ _ _)

/-- Claim C1: for every input with R data rows and every configured
rows_per_file K > 0, the run writes exactly ceil(R/K) output files, the
filename indexes are exactly the list 1..ceil(R/K) (no duplicates, no
gaps) regardless of the batch size or of the order in which writer threads
win the allocator mutex, and the data rows across all output files total
exactly R. -/
theorem claim1_split_exact {α : Type _} (K : Nat) (hK : 0 < K) (rows : List α)
    (scheds : List (List Nat)) (hs : ValidScheds K scheds (readChunks (K * 14) rows)) :
    (runSplit K rows scheds).1.length = get_number_csv_files rows.length K ∧
    (runSplit K rows scheds).1.map Prod.fst =
      List.range' 1 (get_number_csv_files rows.length K) ∧
    ((runSplit K rows scheds).1.map (fun f => f.2.length)).sum = rows.length := by
  have hfst := runSplit_map_fst K hK rows scheds hs
  refine ⟨?_, hfst, ?_⟩
  · have hlen := congrArg List.length hfst
    simpa using hlen
  · have hq : totalSubChunks K (readChunks (K * 14) rows) ≤
        (indexes_file_names (get_number_csv_files (rows.length + 1) K)).length := by
      rw [totalSubChunks_readChunks K hK rows]
      unfold indexes_file_names
      rw [List.length_range']
      exact get_number_csv_files_mono K _ _ (Nat.le_succ _)
    have hperm := runAll_rowcounts K hK (readChunks (K * 14) rows) scheds
      (indexes_file_names (get_number_csv_files (rows.length + 1) K)) hs hq
    have hsum := hperm.sum_eq
    unfold runSplit
    rw [hsum]
    have h14 : K * 14 = 14 * K := Nat.mul_comm _ _
    rw [h14, flatten_map_readChunks K 14 hK (by omega), ← List.length_flatten,
      flatten_readChunks K hK rows]

/-- Witness for C1: K = 2 and rows [0, 1, 2] (R = 3), under the schedule
where the tail sub-chunk thread wins the mutex first. -/
theorem claim1_split_exact_witness :
    (runSplit 2 [0, 1, 2] [[1, 0]]).1.length = get_number_csv_files 3 2 ∧
    (runSplit 2 [0, 1, 2] [[1, 0]]).1.map Prod.fst =
      List.range' 1 (get_number_csv_files 3 2) ∧
    ((runSplit 2 [0, 1, 2] [[1, 0]]).1.map (fun f => f.2.length)).sum = 3 :=
  claim1_split_exact 2 (by decide) [0, 1, 2] [[1, 0]] (by unfold ValidScheds; decide)

/-- Claim C2 counterexample: R = 3, K = 2 produce two output files, but
under the schedule where the thread of the short tail sub-chunk wins the
allocator mutex first, output file 1 gets the single tail row and output
file 2 gets two rows: a file other than the last one does not have K rows,
so the claimed location of the short file fails under thread scheduling. -/
theorem claim2_counterexample :
    (runSplit 2 [0, 1, 2] [[1, 0]]).1 = [(1, [2]), (2, [0, 1])] ∧
    ¬ (∀ f ∈ (runSplit 2 [0, 1, 2] [[1, 0]]).1,
        f.1 ≠ (runSplit 2 [0, 1, 2] [[1, 0]]).1.length → f.2.length = 2) := by
  decide

/-- Claim C2 as amended: the multiset of data-row counts over the output
files is that of the in-order K-row chunking of the input — independent of
batch boundaries, because the batch size 14 * K is a multiple of K — where
every chunk except the final one has exactly K rows and the final one has
R mod K rows (or K when K divides R).  Which output index the short file
carries depends on the thread schedule. -/
theorem claim2_amended {α : Type _} (K : Nat) (hK : 0 < K) (rows : List α)
    (scheds : List (List Nat)) (hs : ValidScheds K scheds (readChunks (K * 14) rows)) :
    ((runSplit K rows scheds).1.map (fun f => f.2.length)).Perm
      ((readChunks K rows).map List.length) ∧
    (∀ c ∈ (readChunks K rows).dropLast, c.length = K) ∧
    (∀ hne : readChunks K rows ≠ [],
      ((readChunks K rows).getLast hne).length =
        if rows.length % K = 0 then K else rows.length % K) := by
  refine ⟨?_, readChunks_dropLast_full K hK rows, ?_⟩
  · have hq : totalSubChunks K (readChunks (K * 14) rows) ≤
        (indexes_file_names (get_number_csv_files (rows.length + 1) K)).length := by
      rw [totalSubChunks_readChunks K hK rows]
      unfold indexes_file_names
      rw [List.length_range']
      exact get_number_csv_files_mono K _ _ (Nat.le_succ _)
    have hperm := runAll_rowcounts K hK (readChunks (K * 14) rows) scheds
      (indexes_file_names (get_number_csv_files (rows.length + 1) K)) hs hq
    have h14 : K * 14 = 14 * K := Nat.mul_comm _ _
    have hflat : ((readChunks (K * 14) rows).map (readChunks K)).flatten =
        readChunks K rows := by
      rw [h14]
      exact flatten_map_readChunks K 14 hK (by omega) rows
    rw [hflat] at hperm
    exact hperm
  · intro hne
    have hrows : rows ≠ [] := by
      intro h0
      rw [h0, readChunks_nil] at hne
      exact hne rfl
    exact readChunks_getLast_length K hK rows hrows hne

/-- Witness for the amended C2: K = 2, rows [0, 1, 2], spawn-order
schedule; the final chunk has 3 mod 2 = 1 row. -/
theorem claim2_amended_witness :
    ((runSplit 2 [0, 1, 2] [[0, 1]]).1.map (fun f => f.2.length)).Perm
      ((readChunks 2 [0, 1, 2]).map List.length) ∧
    ((readChunks 2 ([0, 1, 2] : List Nat)).getLast (by decide)).length = 1 :=
  ⟨(claim2_amended 2 (by decide) [0, 1, 2] [[0, 1]] (by unfold ValidScheds; decide)).1,
   (claim2_amended 2 (by decide) [0, 1, 2] [[0, 1]]
      (by unfold ValidScheds; decide)).2.2 (by decide)⟩

/-- Claim C4 counterexample: an input with R = 2 data rows and K = 2.  The
line count of the file (header included) is 3, so the allocator is seeded
with indexes_file_names(ceil(3/2)) = [1, 2] even though ceil(R/K) = 1, and
after the run index 2 is still sitting in the allocator — the allocator is
not empty after the last batch. -/
theorem claim4_counterexample :
    get_number_csv_files (count_csv_lines ["id;name", "1;a", "2;b"]) 2 = 2 ∧
    indexes_file_names (get_number_csv_files (count_csv_lines ["id;name", "1;a", "2;b"]) 2) =
      [1, 2] ∧
    get_number_csv_files 2 2 = 1 ∧
    (runSplit 2 ["1;a", "2;b"] [[0]]).2 = [2] := by
  decide

/-- Claim C4 as amended: the allocator is seeded with 1..N for
N = ceil((R + 1) / K), because count_csv_lines counts the header line too.
Every index the run hands out is handed out exactly once (the written
indexes plus the leftover pool reassemble the seed, and the written
indexes are the distinct prefix 1..ceil(R/K), so no take ever finds the
allocator empty); but when K divides R one seeded index is never handed
out and the allocator is non-empty after the last batch. -/
theorem claim4_amended {α : Type _} (K : Nat) (hK : 0 < K) (rows : List α)
    (scheds : List (List Nat)) (hs : ValidScheds K scheds (readChunks (K * 14) rows)) :
    (runSplit K rows scheds).1.map Prod.fst ++ (runSplit K rows scheds).2 =
      indexes_file_names (get_number_csv_files (rows.length + 1) K) ∧
    (runSplit K rows scheds).1.length = get_number_csv_files rows.length K ∧
    (runSplit K rows scheds).2.length = (if K ∣ rows.length then 1 else 0) := by
  have hsnd : (runSplit K rows scheds).2 =
      (indexes_file_names (get_number_csv_files (rows.length + 1) K)).drop
        (get_number_csv_files rows.length K) := by
    unfold runSplit
    rw [runAll_snd, totalSubChunks_readChunks K hK rows]
  have htake : (runSplit K rows scheds).1.map Prod.fst =
      (indexes_file_names (get_number_csv_files (rows.length + 1) K)).take
        (get_number_csv_files rows.length K) := by
    unfold runSplit
    rw [runAll_map_fst K _ _ _ hs, totalSubChunks_readChunks K hK rows]
  refine ⟨?_, ?_, ?_⟩
  · rw [htake, hsnd, List.take_append_drop]
  · have hlen := congrArg List.length (runSplit_map_fst K hK rows scheds hs)
    simpa using hlen
  · rw [hsnd, List.length_drop]
    unfold indexes_file_names
    rw [List.length_range']
    exact seed_surplus K rows.length hK

/-- Witness for the amended C4: K = 2, rows [0, 1]; K divides R, so index
2 is left over. -/
theorem claim4_amended_witness :
    (runSplit 2 [0, 1] [[0]]).1.map Prod.fst ++ (runSplit 2 [0, 1] [[0]]).2 =
      indexes_file_names (get_number_csv_files 3 2) ∧
    (runSplit 2 [0, 1] [[0]]).1.length = get_number_csv_files 2 2 ∧
    (runSplit 2 [0, 1] [[0]]).2.length = (if 2 ∣ 2 then 1 else 0) :=
  claim4_amended 2 (by decide) [0, 1] [[0]] (by unfold ValidScheds; decide)

/-- Claim C5: on a strictly sorted pool, takeIndex signals exhaustion
(none) exactly on the empty pool, and otherwise removes and returns the
smallest remaining index, leaving a strictly sorted remainder whose every
element is strictly larger — so no later call can ever return the same
index again. -/
theorem claim5_takeIndex_fifo (l : List Nat) (hl : List.Pairwise (· < ·) l) :
    ((takeIndex l).1 = none ↔ l = []) ∧
    (∀ x, (takeIndex l).1 = some x →
      (∀ y ∈ l, x ≤ y) ∧
      (∀ y ∈ (takeIndex l).2, x < y) ∧
      List.Pairwise (· < ·) (takeIndex l).2 ∧
      x :: (takeIndex l).2 = l) := by
  cases l with
  | nil =>
    constructor
    · simp [takeIndex]
    · intro x hx
      simp [takeIndex] at hx
  | cons a as =>
    rw [List.pairwise_cons] at hl
    constructor
    · simp [takeIndex]
    · intro x hx
      have hax : a = x := by
        simpa [takeIndex] using hx
      subst hax
      refine ⟨?_, hl.1, hl.2, rfl⟩
      intro y hy
      rcases List.mem_cons.mp hy with rfl | hy
      · exact Nat.le_refl _
      · exact Nat.le_of_lt (hl.1 y hy)

/-- Witness for C5 on the pool [1, 2, 3]: the front call returns 1, the
minimum, and leaves the sorted remainder [2, 3]. -/
theorem claim5_takeIndex_fifo_witness :
    ((takeIndex [1, 2, 3]).1 = none ↔ ([1, 2, 3] : List Nat) = []) ∧
    ((∀ y ∈ ([1, 2, 3] : List Nat), 1 ≤ y) ∧
      (∀ y ∈ (takeIndex [1, 2, 3]).2, 1 < y) ∧
      List.Pairwise (· < ·) (takeIndex [1, 2, 3]).2 ∧
      1 :: (takeIndex [1, 2, 3]).2 = [1, 2, 3]) :=
  ⟨(claim5_takeIndex_fifo [1, 2, 3] (by decide)).1,
   (claim5_takeIndex_fifo [1, 2, 3] (by decide)).2 1 rfl⟩

theorem ok_bind {α β : Type} (a : α) (f : α → Except String β) :
    (Except.ok a >>= f) = f a := rfl

theorem error_bind {α β : Type} (e : String) (f : α → Except String β) :
    ((Except.error e : Except String α) >>= f) = Except.error e := rfl

theorem any_fst (p : String → Bool) :
    ∀ l : List (String × List (Option String)),
      l.any (fun c => p c.1) = (l.map Prod.fst).any p := by
  intro l
  induction l with
  | nil => rfl
  | cons c cs ih => simp [List.any_cons, ih]

theorem pureMapColumn_names (df : DFrame) (name : String) (f : String → String) :
    (pureMapColumn df name f).cols.map Prod.fst = df.cols.map Prod.fst := by
  unfold pureMapColumn
  simp only [List.map_map]
  apply List.map_congr_left
  intro c _
  simp only [Function.comp_apply]
  by_cases h : c.1 = name
  · simp [h]
  · simp [h]

theorem colExists_eq_of_names {d₁ d₂ : DFrame}
    (h : d₁.cols.map Prod.fst = d₂.cols.map Prod.fst) (c : String) :
    colExists d₁ c = colExists d₂ c := by
  unfold colExists
  rw [any_fst (fun x => x = c) d₁.cols, any_fst (fun x => x = c) d₂.cols, h]

theorem pureApplyCols_cons (f : String → String) (df : DFrame) (c : String)
    (cs : List String) :
    pureApplyCols f df (c :: cs) = pureApplyCols f (pureMapColumn df c f) cs := rfl

theorem pureApplyCols_names (f : String → String) :
    ∀ (cs : List String) (df : DFrame),
      (pureApplyCols f df cs).cols.map Prod.fst = df.cols.map Prod.fst := by
  intro cs
  induction cs with
  | nil => intro df; rfl
  | cons c cs ih =>
    intro df
    rw [pureApplyCols_cons, ih, pureMapColumn_names]

theorem mapColumn_found (df : DFrame) (name : String) (f : String → String)
    (h : colExists df name = true) :
    mapColumn df name f = .ok (pureMapColumn df name f) := by
  unfold mapColumn
  rw [if_pos h]

theorem mapColumn_missing (df : DFrame) (name : String) (f : String → String)
    (h : colExists df name = false) :
    mapColumn df name f = .error ("ColumnNotFound: " ++ name) := by
  unfold mapColumn
  rw [if_neg (by simp [h])]

theorem applyCols_ok (f : String → String) :
    ∀ (cs : List String) (df : DFrame), (∀ c ∈ cs, colExists df c = true) →
      applyCols f df cs = .ok (pureApplyCols f df cs) := by
  intro cs
  induction cs with
  | nil => intro df _; rfl
  | cons c cs ih =>
    intro df hp
    have hc : colExists df c = true := hp c (List.mem_cons_self _ _)
    have hpres : ∀ x ∈ cs, colExists (pureMapColumn df c f) x = true := by
      intro x hx
      rw [colExists_eq_of_names (pureMapColumn_names df c f) x]
      exact hp x (List.mem_cons_of_mem _ hx)
    unfold applyCols
    rw [List.foldlM_cons, mapColumn_found df c f hc, ok_bind]
    exact ih (pureMapColumn df c f) hpres

theorem applyCols_ok_names (f : String → String) :
    ∀ (cs : List String) (df d : DFrame), applyCols f df cs = .ok d →
      d.cols.map Prod.fst = df.cols.map Prod.fst := by
  intro cs
  induction cs with
  | nil =>
    intro df d h
    have hd : df = d := by
      have h0 : (Except.ok df : Except String DFrame) = .ok d := h
      injection h0
    rw [← hd]
  | cons c cs ih =>
    intro df d h
    unfold applyCols at h
    rw [List.foldlM_cons] at h
    by_cases hc : colExists df c = true
    · rw [mapColumn_found df c f hc, ok_bind] at h
      rw [ih (pureMapColumn df c f) d h, pureMapColumn_names]
    · rw [mapColumn_missing df c f (by simpa using hc), error_bind] at h
      exact Except.noConfusion h

theorem applyCols_error (f : String → String) :
    ∀ (cs : List String) (df : DFrame) (c : String), c ∈ cs →
      colExists df c = false → ∃ e, applyCols f df cs = .error e := by
  intro cs
  induction cs with
  | nil => intro df c hc _; cases hc
  | cons c0 cs ih =>
    intro df c hc habs
    unfold applyCols
    rw [List.foldlM_cons]
    by_cases h0 : colExists df c0 = true
    · rw [mapColumn_found df c0 f h0, ok_bind]
      rcases List.mem_cons.mp hc with rfl | hc2
      · rw [habs] at h0
        exact Bool.noConfusion h0
      · exact ih (pureMapColumn df c0 f) c hc2
          (by rw [colExists_eq_of_names (pureMapColumn_names df c0 f) c]; exact habs)
    · rw [mapColumn_missing df c0 f (by simpa using h0), error_bind]
      exact ⟨_, rfl⟩

theorem if_pureApplyCols_names (b : Prop) [Decidable b] (f : String → String)
    (d : DFrame) (cs : List String) :
    (if b then pureApplyCols f d cs else d).cols.map Prod.fst =
      d.cols.map Prod.fst := by
  by_cases hb : b
  · rw [if_pos hb]
    exact pureApplyCols_names f cs d
  · rw [if_neg hb]

theorem pureApplyKind_names (df : DFrame) (kv : String × List String) :
    (pureApplyKind df kv).cols.map Prod.fst = df.cols.map Prod.fst := by
  simp only [pureApplyKind]
  exact Eq.trans (if_pureApplyCols_names _ _ _ _)
    (Eq.trans (if_pureApplyCols_names _ _ _ _)
      (Eq.trans (if_pureApplyCols_names _ _ _ _) (if_pureApplyCols_names _ _ _ _)))

theorem applyTransformKind_ok (df : DFrame) (kv : String × List String)
    (hp : ∀ c ∈ kv.2, colExists df c = true) :
    applyTransformKind df kv = .ok (pureApplyKind df kv) := by
  by_cases h1 : kv.1 = "to_uppercase"
  · simp only [applyTransformKind, pureApplyKind, h1, String.reduceEq, reduceIte]
    rw [applyCols_ok strToUppercase kv.2 df hp]
    rfl
  · by_cases h2 : kv.1 = "to_lowercase"
    · simp only [applyTransformKind, pureApplyKind, h1, h2, String.reduceEq, reduceIte,
        ite_true, ite_false, pure_bind]
      rw [applyCols_ok strToLowercase kv.2 df hp]
      rfl
    · by_cases h3 : kv.1 = "to_normalized"
      · simp only [applyTransformKind, pureApplyKind, h1, h2, h3, String.reduceEq,
          reduceIte, ite_true, ite_false, pure_bind]
        rw [applyCols_ok deunicode kv.2 df hp]
        rfl
      · by_cases h4 : kv.1 = "to_titlecase"
        · simp only [applyTransformKind, pureApplyKind, h1, h2, h3, h4, String.reduceEq,
            reduceIte, ite_true, ite_false, pure_bind]
          rw [applyCols_ok to_title_case kv.2 df hp]
        · simp only [applyTransformKind, pureApplyKind, h1, h2, h3, h4, ite_false,
            pure_bind]
          rfl

theorem applyTransformKind_ok_names (df : DFrame) (kv : String × List String)
    (d : DFrame) (h : applyTransformKind df kv = .ok d) :
    d.cols.map Prod.fst = df.cols.map Prod.fst := by
  by_cases h1 : kv.1 = "to_uppercase"
  · simp only [applyTransformKind, h1, String.reduceEq, reduceIte, ite_true, ite_false,
      pure_bind, bind_pure] at h
    exact applyCols_ok_names strToUppercase kv.2 df d h
  · by_cases h2 : kv.1 = "to_lowercase"
    · simp only [applyTransformKind, h1, h2, String.reduceEq, reduceIte, ite_true,
        ite_false, pure_bind, bind_pure] at h
      exact applyCols_ok_names strToLowercase kv.2 df d h
    · by_cases h3 : kv.1 = "to_normalized"
      · simp only [applyTransformKind, h1, h2, h3, String.reduceEq, reduceIte, ite_true,
          ite_false, pure_bind, bind_pure] at h
        exact applyCols_ok_names deunicode kv.2 df d h
      · by_cases h4 : kv.1 = "to_titlecase"
        · simp only [applyTransformKind, h1, h2, h3, h4, String.reduceEq, reduceIte,
            ite_true, ite_false, pure_bind, bind_pure] at h
          exact applyCols_ok_names to_title_case kv.2 df d h
        · simp only [applyTransformKind, h1, h2, h3, h4, ite_false, pure_bind] at h
          have hd : df = d := by injection h
          rw [← hd]

theorem applyTransformKind_error (df : DFrame) (key : String) (cs : List String)
    (c : String)
    (hkey : key = "to_uppercase" ∨ key = "to_lowercase" ∨ key = "to_normalized" ∨
      key = "to_titlecase")
    (hc : c ∈ cs) (habs : colExists df c = false) :
    ∃ e, applyTransformKind df (key, cs) = .error e := by
  rcases hkey with h | h | h | h
  · obtain ⟨e, he⟩ := applyCols_error strToUppercase cs df c hc habs
    refine ⟨e, ?_⟩
    simp only [applyTransformKind, h, String.reduceEq, reduceIte, ite_true, ite_false]
    rw [he]
    rfl
  · obtain ⟨e, he⟩ := applyCols_error strToLowercase cs df c hc habs
    refine ⟨e, ?_⟩
    simp only [applyTransformKind, h, String.reduceEq, reduceIte, ite_true, ite_false,
      pure_bind]
    rw [he]
    rfl
  · obtain ⟨e, he⟩ := applyCols_error deunicode cs df c hc habs
    refine ⟨e, ?_⟩
    simp only [applyTransformKind, h, String.reduceEq, reduceIte, ite_true, ite_false,
      pure_bind]
    rw [he]
    rfl
  · obtain ⟨e, he⟩ := applyCols_error to_title_case cs df c hc habs
    refine ⟨e, ?_⟩
    simp only [applyTransformKind, h, String.reduceEq, reduceIte, ite_true, ite_false,
      pure_bind]
    rw [he]

theorem pureMapColumn_comm (df : DFrame) (c₁ c₂ : String) (f g : String → String)
    (h : c₁ ≠ c₂) :
    pureMapColumn (pureMapColumn df c₁ f) c₂ g =
      pureMapColumn (pureMapColumn df c₂ g) c₁ f := by
  unfold pureMapColumn
  apply congrArg DFrame.mk
  simp only [List.map_map]
  apply List.map_congr_left
  intro p _
  simp only [Function.comp_apply]
  by_cases h1 : p.1 = c₁
  · by_cases h2 : p.1 = c₂
    · exact absurd (h1.symm.trans h2) h
    · simp [h1, h2, h, Ne.symm h]
  · by_cases h2 : p.1 = c₂
    · simp [h1, h2, h, Ne.symm h]
    · simp [h1, h2]

theorem pureMapColumn_pureApplyCols_comm (f g : String → String) (c : String) :
    ∀ (cs : List String) (df : DFrame), c ∉ cs →
      pureApplyCols g (pureMapColumn df c f) cs =
        pureMapColumn (pureApplyCols g df cs) c f := by
  intro cs
  induction cs with
  | nil => intro df _; rfl
  | cons c0 cs ih =>
    intro df hnotin
    have hne : c ≠ c0 := fun e => hnotin (e ▸ List.mem_cons_self _ _)
    rw [pureApplyCols_cons, pureApplyCols_cons,
      pureMapColumn_comm df c c0 f g hne,
      ih (pureMapColumn df c0 g) (fun hm => hnotin (List.mem_cons_of_mem _ hm))]

theorem pureApplyCols_comm (f g : String → String) :
    ∀ (cs₁ cs₂ : List String) (df : DFrame), (∀ a ∈ cs₁, a ∉ cs₂) →
      pureApplyCols g (pureApplyCols f df cs₁) cs₂ =
        pureApplyCols f (pureApplyCols g df cs₂) cs₁ := by
  intro cs₁
  induction cs₁ with
  | nil => intro cs₂ df _; rfl
  | cons a cs₁ ih =>
    intro cs₂ df hdisj
    rw [pureApplyCols_cons f df a cs₁, pureApplyCols_cons f (pureApplyCols g df cs₂) a cs₁,
      ih cs₂ (pureMapColumn df a f) (fun x hx => hdisj x (List.mem_cons_of_mem _ hx)),
      pureMapColumn_pureApplyCols_comm f g a cs₂ df (hdisj a (List.mem_cons_self _ _))]

theorem pureApplyKind_eq (df : DFrame) (kv : String × List String) :
    pureApplyKind df kv =
      match kindFnOpt kv.1 with
      | some f => pureApplyCols f df kv.2
      | none => df := by
  by_cases h1 : kv.1 = "to_uppercase"
  · simp only [pureApplyKind, kindFnOpt, h1, String.reduceEq, reduceIte, ite_true,
      ite_false]
  · by_cases h2 : kv.1 = "to_lowercase"
    · simp only [pureApplyKind, kindFnOpt, h1, h2, String.reduceEq, reduceIte, ite_true,
        ite_false]
    · by_cases h3 : kv.1 = "to_normalized"
      · simp only [pureApplyKind, kindFnOpt, h1, h2, h3, String.reduceEq, reduceIte,
          ite_true, ite_false]
      · by_cases h4 : kv.1 = "to_titlecase"
        · simp only [pureApplyKind, kindFnOpt, h1, h2, h3, h4, String.reduceEq,
            reduceIte, ite_true, ite_false]
        · simp only [pureApplyKind, kindFnOpt, h1, h2, h3, h4, ite_false]

theorem pureApplyKind_comm (df : DFrame) (p q : String × List String)
    (hdisj : ∀ a ∈ p.2, a ∉ q.2) :
    pureApplyKind (pureApplyKind df p) q = pureApplyKind (pureApplyKind df q) p := by
  rw [pureApplyKind_eq (pureApplyKind df p) q, pureApplyKind_eq df p,
    pureApplyKind_eq (pureApplyKind df q) p, pureApplyKind_eq df q]
  cases hp : kindFnOpt p.1 with
  | none =>
    cases hq : kindFnOpt q.1 with
    | none => rfl
    | some g => rfl
  | some f =>
    cases hq : kindFnOpt q.1 with
    | none => rfl
    | some g => exact pureApplyCols_comm f g p.2 q.2 df hdisj

theorem foldl_pureApplyKind_perm (df : DFrame) (pairs order : List (String × List String))
    (hperm : order.Perm pairs)
    (hdisj : ∀ p ∈ pairs, ∀ q ∈ pairs, p ≠ q → ∀ a ∈ p.2, a ∉ q.2) :
    order.foldl pureApplyKind df = pairs.foldl pureApplyKind df := by
  apply List.Perm.foldl_eq' hperm ?_ df
  intro x hx y hy z
  by_cases hxy : x = y
  · rw [hxy]
  · exact pureApplyKind_comm z x y
      (hdisj x (hperm.mem_iff.mp hx) y (hperm.mem_iff.mp hy) hxy)

theorem applyTransformations_ok :
    ∀ (order : List (String × List String)) (df : DFrame),
      (∀ p ∈ order, ∀ c ∈ p.2, colExists df c = true) →
      applyTransformations order df = .ok (order.foldl pureApplyKind df) := by
  intro order
  induction order with
  | nil => intro df _; rfl
  | cons p ps ih =>
    intro df hp
    unfold applyTransformations
    rw [List.foldlM_cons, applyTransformKind_ok df p (hp p (List.mem_cons_self _ _)),
      ok_bind]
    have hpres : ∀ q ∈ ps, ∀ c ∈ q.2, colExists (pureApplyKind df p) c = true := by
      intro q hq c hc
      rw [colExists_eq_of_names (pureApplyKind_names df p) c]
      exact hp q (List.mem_cons_of_mem _ hq) c hc
    rw [show List.foldlM applyTransformKind (pureApplyKind df p) ps =
        applyTransformations ps (pureApplyKind df p) from rfl,
      ih (pureApplyKind df p) hpres]
    rfl

theorem applyTransformations_error :
    ∀ (order : List (String × List String)) (df : DFrame) (key : String)
      (cs : List String) (c : String),
      (key = "to_uppercase" ∨ key = "to_lowercase" ∨ key = "to_normalized" ∨
        key = "to_titlecase") →
      (key, cs) ∈ order → c ∈ cs → colExists df c = false →
      ∃ e, applyTransformations order df = .error e := by
  intro order
  induction order with
  | nil => intro df key cs c _ hmem _ _; cases hmem
  | cons p ps ih =>
    intro df key cs c hkey hmem hc habs
    unfold applyTransformations
    rw [List.foldlM_cons]
    rcases List.mem_cons.mp hmem with heq | hmem2
    · obtain ⟨e, he⟩ := applyTransformKind_error df key cs c hkey hc habs
      exact ⟨e, by rw [← heq, he, error_bind]⟩
    · cases hres : applyTransformKind df p with
      | error e => exact ⟨e, rfl⟩
      | ok d =>
        have habs2 : colExists d c = false := by
          rw [colExists_eq_of_names (applyTransformKind_ok_names df p d hres) c]
          exact habs
        obtain ⟨e, he⟩ := ih d key cs c hkey hmem2 hc habs2
        exact ⟨e, he⟩

/-- Claim C3 counterexample: the same configuration (uppercase and
titlecase both targeting column name, src/main.rs 83-96) applied to the
same batch under two legitimate HashMap iteration orders yields different
outputs — titlecase-then-uppercase gives AB CD while the claimed fixed
order uppercase-then-titlecase gives Ab Cd — so the result does not always
equal the fixed-order application and two runs need not agree. -/
theorem claim3_counterexample :
    applyTransformations [("to_titlecase", ["name"]), ("to_uppercase", ["name"])]
        (DFrame.mk [("name", [some "ab cd"])]) =
      .ok (DFrame.mk [("name", [some "AB CD"])]) ∧
    applyTransformations [("to_uppercase", ["name"]), ("to_titlecase", ["name"])]
        (DFrame.mk [("name", [some "ab cd"])]) =
      .ok (DFrame.mk [("name", [some "Ab Cd"])]) ∧
    DFrame.mk [("name", [some "AB CD"])] ≠ DFrame.mk [("name", [some "Ab Cd"])] :=
  ⟨rfl, rfl, by decide⟩

/-- Claim C3 as amended: the transform kinds are iterated in the HashMap's
unspecified order, so a column targeted by more than one kind makes the
output depend on that order (see the counterexample).  What does hold:
when no column is targeted by more than one kind and all named columns
exist in the batch, every iteration order produces the same frame — in
particular the declaration order uppercase, lowercase, normalize,
titlecase — so such runs are reproducible. -/
theorem claim3_amended (df : DFrame) (pairs order : List (String × List String))
    (hperm : order.Perm pairs)
    (hdisj : ∀ p ∈ pairs, ∀ q ∈ pairs, p ≠ q → ∀ a ∈ p.2, a ∉ q.2)
    (hp : ∀ p ∈ pairs, ∀ c ∈ p.2, colExists df c = true) :
    applyTransformations order df = applyTransformations pairs df := by
  have hp2 : ∀ p ∈ order, ∀ c ∈ p.2, colExists df c = true := fun p hpo =>
    hp p (hperm.mem_iff.mp hpo)
  rw [applyTransformations_ok order df hp2, applyTransformations_ok pairs df hp,
    foldl_pureApplyKind_perm df pairs order hperm hdisj]

/-- Witness for the amended C3: uppercase on column a and titlecase on
column b, applied in either order to a two-column frame. -/
theorem claim3_amended_witness :
    applyTransformations [("to_titlecase", ["b"]), ("to_uppercase", ["a"])]
        (DFrame.mk [("a", [some "x"]), ("b", [some "y z"])]) =
      applyTransformations [("to_uppercase", ["a"]), ("to_titlecase", ["b"])]
        (DFrame.mk [("a", [some "x"]), ("b", [some "y z"])]) :=
  claim3_amended (DFrame.mk [("a", [some "x"]), ("b", [some "y z"])])
    [("to_uppercase", ["a"]), ("to_titlecase", ["b"])]
    [("to_titlecase", ["b"]), ("to_uppercase", ["a"])]
    (by decide) (by decide) (by decide)

/-- Claim C6: a transform configuration naming a column that the batch
does not have makes the column lookup fail with a column-not-found error,
whichever of the four transform kinds names it; the error leaves the
transform stage as an error value, which `?` propagates out of `main`, so
the run aborts with a non-zero result rather than recovering per row or
per batch. -/
theorem claim6_unknown_column_aborts (order : List (String × List String))
    (df : DFrame) (key : String) (cs : List String) (c : String)
    (hkey : key = "to_uppercase" ∨ key = "to_lowercase" ∨ key = "to_normalized" ∨
      key = "to_titlecase")
    (hmem : (key, cs) ∈ order) (hc : c ∈ cs) (habs : colExists df c = false) :
    ∃ e, applyTransformations order df = .error e ∧
      transformAbortCode (applyTransformations order df) = 1 := by
  obtain ⟨e, he⟩ := applyTransformations_error order df key cs c hkey hmem hc habs
  refine ⟨e, he, ?_⟩
  rw [he]
  rfl

/-- Witness for C6: an uppercase transform naming the absent column name
on a frame that only has column id. -/
theorem claim6_unknown_column_aborts_witness :
    ∃ e, applyTransformations [("to_uppercase", ["name"])]
        (DFrame.mk [("id", [some "1"])]) = .error e ∧
      transformAbortCode (applyTransformations [("to_uppercase", ["name"])]
        (DFrame.mk [("id", [some "1"])])) = 1 :=
  claim6_unknown_column_aborts [("to_uppercase", ["name"])]
    (DFrame.mk [("id", [some "1"])]) "to_uppercase" ["name"] "name"
    (Or.inl rfl) (List.mem_cons_self _ _) (List.mem_cons_self _ _) (by decide)

theorem map_id_of_mem {β : Type _} {f : β → β} :
    ∀ l : List β, (∀ x ∈ l, f x = x) → l.map f = l := by
  intro l
  induction l with
  | nil => intro _; rfl
  | cons x xs ih =>
    intro h
    rw [List.map_cons, h x (List.mem_cons_self _ _),
      ih (fun y hy => h y (List.mem_cons_of_mem _ hy))]

theorem toUpper_eq_self (c : Char) (h : (97 ≤ c.toNat && c.toNat ≤ 122) = false) :
    c.toUpper = c := by
  have h2 : ¬(c.toNat ≥ 97 ∧ c.toNat ≤ 122) := by
    simp only [Bool.and_eq_false_iff, decide_eq_false_iff_not] at h
    omega
  show (if c.toNat ≥ 97 ∧ c.toNat ≤ 122 then Char.ofNat (c.toNat - 32) else c) = c
  rw [if_neg h2]

theorem map_toUpper_of_hasNoLowercase :
    ∀ l : List Char, l.all (fun c => !(97 ≤ c.toNat && c.toNat ≤ 122)) = true →
      l.map Char.toUpper = l := by
  intro l
  induction l with
  | nil => intro _; rfl
  | cons c cs ih =>
    intro h
    rw [List.all_cons, Bool.and_eq_true] at h
    have hc : (97 ≤ c.toNat && c.toNat ≤ 122) = false := by
      have h1 := h.1
      cases hb : (97 ≤ c.toNat && c.toNat ≤ 122 : Bool) with
      | false => rfl
      | true => rw [hb] at h1; exact absurd h1 (by decide)
    rw [List.map_cons, toUpper_eq_self c hc, ih h.2]

theorem strToUppercase_fixed (s : String) (h : hasNoLowercase s = true) :
    strToUppercase s = s := by
  unfold strToUppercase
  rw [map_toUpper_of_hasNoLowercase s.data h]

theorem deunicodeChar_ascii (c : Char) : (deunicodeChar c).all isAsciiChar = true := by
  unfold deunicodeChar
  by_cases h : c.toNat < 128
  · rw [if_pos h]
    simp [isAsciiChar, h]
  · rw [if_neg h]
    cases hf : deunicodeTable.find? (fun p => p.1 = c) with
    | none => decide
    | some p =>
      have hmem := List.mem_of_find?_eq_some hf
      have hall : ∀ q ∈ deunicodeTable, q.2.all isAsciiChar = true := by decide
      exact hall p hmem

theorem deunicodeChars_ascii :
    ∀ l : List Char, (deunicodeChars l).all isAsciiChar = true := by
  intro l
  induction l with
  | nil => rfl
  | cons c cs ih =>
    show (deunicodeChar c ++ deunicodeChars cs).all isAsciiChar = true
    rw [List.all_append, deunicodeChar_ascii c, ih]
    rfl

theorem deunicodeChars_fixed :
    ∀ l : List Char, l.all isAsciiChar = true → deunicodeChars l = l := by
  intro l
  induction l with
  | nil => intro _; rfl
  | cons c cs ih =>
    intro h
    rw [List.all_cons, Bool.and_eq_true] at h
    show deunicodeChar c ++ deunicodeChars cs = c :: cs
    have hc : c.toNat < 128 := by
      have := h.1
      simpa [isAsciiChar] using this
    unfold deunicodeChar
    rw [if_pos hc, ih h.2]
    rfl

/-- Claim C8: the uppercase transform leaves a column unchanged when every
cell value is already fully uppercase (contains no lowercase letter), and
the normalize transform is stable under re-application: deunicode twice
equals deunicode once for every value. -/
theorem claim8_idempotence :
    (∀ (df : DFrame) (name : String),
      colExists df name = true →
      (∀ p ∈ df.cols, p.1 = name → ∀ v ∈ p.2, ∀ s, v = some s →
        hasNoLowercase s = true) →
      mapColumn df name strToUppercase = .ok df) ∧
    (∀ s : String, deunicode (deunicode s) = deunicode s) := by
  constructor
  · intro df name hex hupper
    rw [mapColumn_found df name strToUppercase hex]
    have hfix : pureMapColumn df name strToUppercase = df := by
      unfold pureMapColumn
      have hmap : df.cols.map
          (fun c => if c.1 = name then (c.1, c.2.map (Option.map strToUppercase)) else c) =
          df.cols := by
        apply map_id_of_mem
        intro p hp
        show (if p.1 = name then (p.1, p.2.map (Option.map strToUppercase)) else p) = p
        by_cases hn : p.1 = name
        · rw [if_pos hn]
          have hvals : p.2.map (Option.map strToUppercase) = p.2 := by
            apply map_id_of_mem
            intro v hv
            cases v with
            | none => rfl
            | some s =>
              show some (strToUppercase s) = some s
              rw [strToUppercase_fixed s (hupper p hp hn (some s) hv s rfl)]
          rw [hvals]
        · rw [if_neg hn]
      rw [hmap]
    rw [hfix]
  · intro s
    show String.mk (deunicodeChars (deunicodeChars s.data)) = String.mk (deunicodeChars s.data)
    exact congrArg String.mk (deunicodeChars_fixed _ (deunicodeChars_ascii s.data))

/-- Witness for C8: an already-uppercase column is untouched and deunicode
is stable on an accented value. -/
theorem claim8_idempotence_witness :
    mapColumn (DFrame.mk [("name", [some "ABC", none])]) "name" strToUppercase =
      .ok (DFrame.mk [("name", [some "ABC", none])]) ∧
    deunicode (deunicode "José") = deunicode "José" :=
  ⟨claim8_idempotence.1 (DFrame.mk [("name", [some "ABC", none])]) "name"
      (by decide) (by decide),
   claim8_idempotence.2 "José"⟩

/-- Claim C7: a missing or zero-length input file exits with code 1 and a
non-empty human-readable message before any output file is produced;
otherwise, when the batch loop finishes with the source exhausted and no
propagated error, the process exits with code 0. -/
theorem claim7_exit_codes (present : Bool) (byteLen : Nat) (pipeErr : Option String)
    (files : List (Nat × List String)) :
    ((present = false ∨ byteLen = 0) →
      ∃ m, mainRun present byteLen pipeErr files = (1, [m], []) ∧ m ≠ "") ∧
    (present = true → byteLen ≠ 0 → pipeErr = none →
      mainRun present byteLen pipeErr files = (0, [], files)) := by
  constructor
  · intro h
    cases present with
    | false =>
      exact ⟨"Error: No such file or directory (os error 2)",
        by simp [mainRun], by decide⟩
    | true =>
      have hb : byteLen = 0 := by
        rcases h with h | h
        · cases h
        · exact h
      exact ⟨"O arquivo está vazio, por gentileza informe um arquivo valido.",
        by simp [mainRun, hb], by decide⟩
  · intro h1 h2 h3
    subst h1
    subst h3
    simp [mainRun, h2]

/-- Witness for C7: the missing-file and empty-file failures and a
successful completed run. -/
theorem claim7_exit_codes_witness :
    (∃ m, mainRun false 5 none [] = (1, [m], []) ∧ m ≠ "") ∧
    (∃ m, mainRun true 0 none [] = (1, [m], []) ∧ m ≠ "") ∧
    mainRun true 3 none [(1, ["r"])] = (0, [], [(1, ["r"])]) :=
  ⟨(claim7_exit_codes false 5 none []).1 (Or.inl rfl),
   (claim7_exit_codes true 0 none []).1 (Or.inr rfl),
   (claim7_exit_codes true 3 none [(1, ["r"])]).2 rfl (by decide) rfl⟩

/-- Claim C9: the chunk reader splits input rows on the hardcoded ';'
independently of the configured delimiter — parsing with any configured
delimiter equals parsing with ';', and a line is split at ';' but not at
the configured character — while the writer joins fields with the
configured delimiter. -/
theorem claim9_reader_hardcoded_semicolon (d : Char) (skipRows nRows : Nat)
    (dataLines : List String) :
    next_chunk d skipRows nRows dataLines = next_chunk ';' skipRows nRows dataLines ∧
    next_chunk ',' 0 2 ["a;b", "a,b"] = [["a", "b"], ["a,b"]] ∧
    (∀ x y : String, writeRecordLine d [x, y] = x ++ String.singleton d ++ y) := by
  refine ⟨rfl, by decide, ?_⟩
  intro x y
  obtain ⟨lx⟩ := x
  obtain ⟨ly⟩ := y
  show String.mk (lx ++ d :: ly) = String.mk (lx ++ [d] ++ ly)
  exact congrArg String.mk (by simp)

/-- Claim C10: if reading a chunk fails, iteration stops silently at the
failed read: the run behaves exactly as if the input ended there — the
remaining reads are never consumed, the files written and the indexes
left in the allocator are those of the prefix — and the run still
finishes with exit code 0. -/
theorem claim10_reader_error_swallowed {α : Type _} (K : Nat)
    (scheds : List (List Nat)) (queue : List Nat)
    (xs rest : List (Except String (List α))) (e : String) :
    runSplitterLoop K scheds queue (xs ++ .error e :: rest) =
      runSplitterLoop K scheds queue xs ∧
    (runSplitterLoop K scheds queue (xs ++ .error e :: rest)).2 = 0 := by
  have hcollect : collectChunks (xs ++ .error e :: rest) = collectChunks xs := by
    induction xs with
    | nil => rfl
    | cons r rs ih =>
      rw [List.cons_append]
      show (match chunkNext r with
        | none => []
        | some df => df :: collectChunks (rs ++ Except.error e :: rest)) =
        (match chunkNext r with
        | none => []
        | some df => df :: collectChunks rs)
      cases chunkNext r with
      | none => rfl
      | some df => rw [ih]
  exact ⟨by unfold runSplitterLoop; rw [hcollect], rfl⟩

end CsvSplitter
